import Mathlib

/-!
Verification development for the i18n-ally context-resolution engine
(`src/core/Global.ts` and the package-manifest parsers).

Paths are modelled as lists of components of an absolute POSIX path:
the path `/a/b` is `["a", "b"]`, the filesystem root is `[]`.
`pathStr` recovers the string form used by the TypeScript code where it
performs string operations (`current.startsWith(root)`); `relativeComps`
models Node's `path.relative` on absolute paths and `joinNorm` models
`path.join` (separator joining followed by normalization of `..`, `.`
and empty segments).
-/

namespace I18n

/-- String form of an absolute path given by its components:
`pathStr ["a","b"] = "/a/b"`, `pathStr [] = ""`. -/
def pathStr : List String → String
  | [] => ""
  | c :: cs => "/" ++ c ++ pathStr cs

/-- Model of JavaScript `String.prototype.startsWith`: character-level
list-prefix test. -/
def strStartsWith (p s : String) : Bool :=
  p.data.isPrefixOf s.data

/-- Length of the longest common component-level prefix of two paths. -/
def commonPrefixLen : List String → List String → Nat
  | a :: as, b :: bs => if a = b then commonPrefixLen as bs + 1 else 0
  | _, _ => 0

/-- Model of Node `path.relative` on absolute paths (component level):
drop the common prefix, then one `".."` per remaining component of the
base followed by the remaining components of the target. -/
def relativeComps (root current : List String) : List String :=
  let n := commonPrefixLen root current
  List.replicate (root.length - n) ".." ++ current.drop n

/-- Model of Node `path.join(base, ...comps)` on an absolute base:
segments are appended and normalized, `".."` pops a component, `"."`
and empty segments are dropped. -/
def joinNorm (base : List String) (comps : List String) : List String :=
  comps.foldl
    (fun acc c =>
      if c = ".." then acc.dropLast
      else if c = "." ∨ c = "" then acc
      else acc ++ [c])
    base

/-- A capability module ("framework"): its id, the parser ids it enables
and its preferred locale paths — the fields of `Framework` that
`Global` reads. -/
structure Framework where
  id : String
  enabledParsers : List String
  perferredLocalePaths : List String
deriving DecidableEq, Repr

/-- The ordered folder list built by `Global.findNearestEnabledFrameworks`:
`path.relative(root, current).split(sep)` (JS `"".split` yields `[""]`),
then `join(root, subfolders.slice(0, i))` for `i` from the full length
down to `1`, then `root` itself. -/
def nearestFolders (root current : List String) : List (List String) :=
  let r := relativeComps root current
  let subfolders := if r = [] then [""] else r
  ((List.range subfolders.length).reverse.map
    (fun k => joinNorm root (subfolders.take (k + 1)))) ++ [root]

/-- Model of `Global.findNearestEnabledFrameworks(root, current)`.
`getPackageDependencies` and `getEnabledFrameworks` are external
collaborators, passed as `deps` and `fwOf`. Mirrors the source: if the
string form of `current` does not start with that of `root`, return
`[[], undefined]`; otherwise walk the folder list and return at the
first folder activating at least one framework. -/
def findNearestEnabledFrameworks
    (deps : List String → List String)
    (fwOf : List String → List String → List Framework)
    (root current : List String) : List Framework × Option (List String) :=
  if strStartsWith (pathStr root) (pathStr current) then
    match (nearestFolders root current).find?
        (fun folder => !(fwOf (deps folder) folder).isEmpty) with
    | some folder => (fwOf (deps folder) folder, some folder)
    | none => ([], none)
  else ([], none)

/-- A path component that survives `path.join` unchanged: not empty,
not `"."`, not `".."`. -/
def goodComp (c : String) : Prop :=
  c ≠ "" ∧ c ≠ "." ∧ c ≠ ".."

instance (c : String) : Decidable (goodComp c) := by
  unfold goodComp; infer_instance

/-!
## Manifest scanning (`PackageParser.load` and its `traverseDirectory`)

A directory tree is a rose tree: the files directly inside a directory
and its named subdirectories. `FSList` is the (mutually inductive) list
of named subdirectories, mirroring `fs.readdirSync(..., withFileTypes)`
restricted to directory entries.
-/

mutual
inductive FSTree : Type where
  | mk (files : List String) (subdirs : FSList)

inductive FSList : Type where
  | nil : FSList
  | cons (name : String) (tree : FSTree) (rest : FSList) : FSList
end

def FSTree.files : FSTree → List String
  | .mk fs _ => fs

def FSTree.subdirs : FSTree → FSList
  | .mk _ sd => sd

/-- The names of the immediate subdirectories. -/
def FSList.names : FSList → List String
  | .nil => []
  | .cons n _ r => n :: r.names

/-- First subdirectory with the given name, as `readdirSync`-backed
path resolution would find it. -/
def FSList.lookup : FSList → String → Option FSTree
  | .nil, _ => none
  | .cons n t r, m => if n = m then some t else r.lookup m

/-- Follow a relative component path down the tree. -/
def descend : FSTree → List String → Option FSTree
  | t, [] => some t
  | t, c :: cs =>
    match t.subdirs.lookup c with
    | none => none
    | some t' => descend t' cs

/-! Well-formed directory tree: sibling names are distinct at every
level (true of a real filesystem). -/
mutual
def FSTree.wf : FSTree → Bool
  | .mk _ sd => sd.names.Nodup && sd.wfAll

def FSList.wfAll : FSList → Bool
  | .nil => true
  | .cons _ t r => t.wf && r.wfAll
end

/-- `Set.add` on the path accumulator: a path already present is not
added again (insertion order preserved, as in the JS `Set`). -/
def addPath (s : List (List String)) (p : List String) : List (List String) :=
  if p ∈ s then s else s ++ [p]

/-! Model of the inner `traverseDirectory(subdir, filename, ignoreDirectories)`
of `PackageParser.load`: record `subdir/filename` when it exists, then
recurse into every subdirectory whose name is not ignored. `cur` is the
absolute path of the directory being visited and `acc` the accumulated
`packageFilepaths` set. -/
mutual
def traverseDirectory (filename : String) (ign : List String) :
    FSTree → List String → List (List String) → List (List String)
  | .mk files subdirs, cur, acc =>
    traverseList filename ign subdirs cur
      (if filename ∈ files then addPath acc (cur ++ [filename]) else acc)

def traverseList (filename : String) (ign : List String) :
    FSList → List String → List (List String) → List (List String)
  | .nil, _, acc => acc
  | .cons n sub rest, cur, acc =>
    traverseList filename ign rest cur
      (if n ∈ ign then acc else traverseDirectory filename ign sub (cur ++ [n]) acc)
end

/-- The `packageFilepaths` set computed by `PackageParser.load(root)`:
the root manifest is checked first, then the recursive walk (which
checks the root again — the `Set` deduplicates). -/
def scanPaths (filename : String) (ign : List String)
    (t : FSTree) (root : List String) : List (List String) :=
  traverseDirectory filename ign t root
    (if filename ∈ t.files then addPath [] (root ++ [filename]) else [])

/-- The three informational log signals `PackageParser.load` can emit. -/
inductive LogMsg : Type where
  | notExists
  | found
  | parseError
deriving DecidableEq, Repr

/-- The `try` block of `load`: read and parse each discovered manifest in
order, concatenating the extracted dependency names; the first parse
failure (a thrown `JSON.parse` error, modelled as `none`) aborts the
whole extraction. `parserRaw` is the (subclass-overridable) raw parser,
`contents` the file contents read by `loadFile`. -/
def parseAll (parserRaw : String → Option (List String))
    (contents : List String → String) : List (List String) → Option (List String)
  | [] => some []
  | p :: ps =>
    match parserRaw (contents p) with
    | none => none
    | some d =>
      match parseAll parserRaw contents ps with
      | none => none
      | some rest => some (d ++ rest)

/-- Model of `PackageParser.load(root)`: scan for manifests; none found
is the `NotFound` outcome (`undefined`) with its log line; otherwise
parse them all inside a `try`, converting any parse error into the same
`undefined` outcome plus a log line. The model is a total function — no
exception escapes to the caller. -/
def load (parserRaw : String → Option (List String))
    (contents : List String → String) (filename : String) (ign : List String)
    (t : FSTree) (root : List String) : Option (List String) × List LogMsg :=
  let paths := scanPaths filename ign t root
  if paths.isEmpty then (none, [.notExists])
  else
    match parseAll parserRaw contents paths with
    | some d => (some d, [.found])
    | none => (none, [.found, .parseError])

/-!
## The lifecycle controller (`Global`)

`Global`'s mutable static fields become an explicit `GlobalState`;
configuration reads (`Config.*`) become a read-only `Config` record (an
`Option` field is `undefined` when `none`); the external collaborators
imported from `../frameworks` and `../parsers` become an `Env` record of
functions. `update` returns the new state together with the list of
notifications fired during the call. Loader resources are identified by
a serial number; disposing appends the number to `disposed`.
-/

/-- A translation-file parser plugin, as much of it as `Global` reads. -/
structure Parser where
  id : String
deriving DecidableEq, Repr

/-- The configuration surface read by `Global.update` and the getters
under proof. `none` models an `undefined` configuration value. -/
structure Config where
  disabled : Bool
  enabledFrameworks : Option (List String)
  enabledParsers : Option (List String)
  localesPathsCfg : Option (List String)
  regexUsageMatch : Option (List String)
  regexUsageMatchAppend : List String
  reloadConfigs : List String
  refreshConfigs : List String
  usageRefreshConfigs : List String
deriving DecidableEq, Repr

/-- External collaborators of `Global`: the framework registry queries
from `../frameworks` and the parser catalog from `../parsers`. -/
structure Env where
  getPackageDependencies : List String → List String
  getEnabledFrameworks : List String → List String → List Framework
  getEnabledFrameworksByIds : List String → List String → List Framework
  availableParsers : List Parser
  defaultEnabledParsers : List String

/-- The mutable static state of `Global`. -/
structure GlobalState where
  loaders : List (List String × Nat)
  nextLoaderId : Nat
  disposed : List Nat
  enabled : Bool
  enabledFrameworks : List Framework
  nearestEnabledFrameworkPath : Option (List String)
  currentWorkspaceRootPath : List String
  currentActiveFilePath : List String
  cacheUsageMatchRegex : List (String × List String)
deriving DecidableEq, Repr

attribute [ext] GlobalState

/-- Notifications `update` can fire (the workspace-root event is fired
only by `updateRootPaths`, outside `update`). -/
inductive Notif : Type where
  | enabledChanged (value : Bool)
  | loaderChanged
deriving DecidableEq, Repr

def EXT_NAMESPACE : String := "i18n-ally"

/-- Does the configuration-change event affect any key of the given
allow-list (each key is namespaced as in the source)? -/
def matchedAny (affects : String → Bool) (configs : List String) : Bool :=
  configs.any (fun c => affects (EXT_NAMESPACE ++ "." ++ c))

namespace Global

/-- Model of the getter `Global.localesPaths` for the current scope:
the configured value if defined (an empty configured array is truthy in
JS, hence kept), else the preferred locale paths of the enabled
frameworks, else `undefined`. -/
def localesPaths (cfg : Config) (fw : List Framework) : Option (List String) :=
  match cfg.localesPathsCfg with
  | some c => some c
  | none =>
    let c := fw.flatMap (fun f => f.perferredLocalePaths)
    if c.isEmpty then none else some c

/-- Model of the getter `Global.enabledParsers`: the explicit parser-id
override when it is a non-empty list, else the ids supplied by the
enabled frameworks; when that list is empty, the default-enabled ids;
finally filter the available parsers by the resulting ids. -/
def enabledParsers (cfg : Config) (env : Env) (fw : List Framework) : List Parser :=
  let ids := match cfg.enabledParsers with
    | some l => if l.isEmpty then fw.flatMap (fun f => f.enabledParsers) else l
    | none => fw.flatMap (fun f => f.enabledParsers)
  let ids2 := if ids.isEmpty then env.defaultEnabledParsers else ids
  env.availableParsers.filter (fun p => ids2.contains p.id)

/-- The framework set and nearest-framework path computed by `update`:
the nearest-ancestor walk unless an explicit module-id override list is
configured, in which case modules come from that list and the stored
path is left unchanged. -/
def computeFrameworks (cfg : Config) (env : Env) (s : GlobalState) :
    List Framework × Option (List String) :=
  match cfg.enabledFrameworks with
  | none =>
    findNearestEnabledFrameworks env.getPackageDependencies env.getEnabledFrameworks
      s.currentWorkspaceRootPath s.currentActiveFilePath
  | some ids =>
    (env.getEnabledFrameworksByIds ids s.currentWorkspaceRootPath,
     s.nearestEnabledFrameworkPath)

/-- Model of `Global.setEnabled`: a transition to a different value
stores it and fires the enabled-changed notification; a redundant
transition is a no-op. -/
def setEnabled (value : Bool) (s : GlobalState) : GlobalState × List Notif :=
  if s.enabled ≠ value then ({ s with enabled := value }, [.enabledChanged value])
  else (s, [])

def lookupLoader (loaders : List (List String × Nat)) (root : List String) :
    Option Nat :=
  (loaders.find? (fun e => e.1 = root)).map (fun e => e.2)

def setLoader (loaders : List (List String × Nat)) (root : List String) (v : Nat) :
    List (List String × Nat) :=
  if (loaders.find? (fun e => e.1 = root)).isSome then
    loaders.map (fun e => if e.1 = root then (e.1, v) else e)
  else loaders ++ [(root, v)]

/-- Model of `Global.initLoader`: no-op on an empty folder path; reuse
an existing loader unless a reload is requested; otherwise create a
fresh loader (a new serial number) and store it under the root. -/
def initLoader (reload : Bool) (s : GlobalState) : GlobalState :=
  if s.currentWorkspaceRootPath = [] then s
  else if (lookupLoader s.loaders s.currentWorkspaceRootPath).isSome ∧ ¬reload then s
  else
    { s with
      loaders := setLoader s.loaders s.currentWorkspaceRootPath s.nextLoaderId,
      nextLoaderId := s.nextLoaderId + 1 }

/-- Model of `Global.unloadAll`: dispose every loader in the registry
(for every root) and clear the registry. -/
def unloadAll (s : GlobalState) : GlobalState :=
  { s with
    disposed := s.disposed ++ s.loaders.map (fun e => e.2),
    loaders := [] }

/-- Model of `Global.resetCache`. -/
def resetCache (s : GlobalState) : GlobalState :=
  { s with cacheUsageMatchRegex := [] }

/-- The part of `Global.update` after the configuration-event check:
recompute the framework set, derive `shouldEnabled` from the
disabled-override, framework, parser and locale-path conjuncts, apply
the state transition, then create/reuse the loader when enabled or tear
everything down when disabled, and finally fire the loader-changed
notification. -/
def recompute (cfg : Config) (env : Env) (reload : Bool) (s : GlobalState) :
    GlobalState × List Notif :=
  let fwnp := computeFrameworks cfg env s
  let s1 := { s with
    enabledFrameworks := fwnp.1,
    nearestEnabledFrameworkPath := fwnp.2 }
  let shouldEnabled := !cfg.disabled &&
    (!fwnp.1.isEmpty && !(enabledParsers cfg env fwnp.1).isEmpty) &&
    (localesPaths cfg fwnp.1).isSome
  let se := setEnabled shouldEnabled s1
  let s3 := if se.1.enabled then initLoader reload se.1 else unloadAll se.1
  (s3, se.2 ++ [.loaderChanged])

/-- Model of `Global.update`: clear the derived-settings cache, then —
when a configuration event is given — test the three allow-lists and
return early (no recomputation, no notification) unless a reload- or
refresh-triggering key was affected. The event is modelled by its
`affectsConfiguration` predicate. -/
def update (cfg : Config) (env : Env) (ev : Option (String → Bool))
    (s : GlobalState) : GlobalState × List Notif :=
  let s0 := resetCache s
  match ev with
  | none => recompute cfg env false s0
  | some affects =>
    let reload := matchedAny affects cfg.reloadConfigs
    let affected := reload || matchedAny affects cfg.refreshConfigs
    if affected then recompute cfg env reload s0 else (s0, [])

/-- A call to `update` that reaches the recomputation phase: either no
configuration event was passed, or the event affected a reload- or
refresh-triggering key. -/
def eventReaches (cfg : Config) (ev : Option (String → Bool)) : Prop :=
  match ev with
  | none => True
  | some affects =>
    matchedAny affects cfg.reloadConfigs = true ∨
    matchedAny affects cfg.refreshConfigs = true

end Global

/-- A fixture framework used by concrete instantiations. -/
def sampleFramework : Framework := ⟨"vue", ["js"], []⟩

/-- A fixture configuration: not disabled, explicit framework override,
no parser override, no configured locale paths, no usage-regex override. -/
def sampleCfg : Config :=
  { disabled := false
    enabledFrameworks := some ["vue"]
    enabledParsers := none
    localesPathsCfg := none
    regexUsageMatch := none
    regexUsageMatchAppend := []
    reloadConfigs := ["loaders"]
    refreshConfigs := ["theme"]
    usageRefreshConfigs := ["regex"] }

/-- A fixture environment: the framework registry resolves the override
ids to the sample framework; one available parser, enabled by default. -/
def sampleEnv : Env :=
  { getPackageDependencies := fun _ => []
    getEnabledFrameworks := fun _ _ => []
    getEnabledFrameworksByIds := fun _ _ => [sampleFramework]
    availableParsers := [⟨"js"⟩]
    defaultEnabledParsers := ["js"] }

/-- A fixture state: currently enabled, non-empty framework set,
non-empty derived-settings cache. -/
def sampleState : GlobalState :=
  { loaders := []
    nextLoaderId := 0
    disposed := []
    enabled := true
    enabledFrameworks := [sampleFramework]
    nearestEnabledFrameworkPath := none
    currentWorkspaceRootPath := ["r"]
    currentActiveFilePath := ["r"]
    cacheUsageMatchRegex := [("k", ["v"])] }

/-- A fixture state with loaders registered for two roots. -/
def loadedState : GlobalState :=
  { sampleState with loaders := [(["r"], 5), (["q"], 7)], disposed := [1] }

/-- JS string interpolation of a possibly-undefined value, as in the
usage-regex cache key `(languageId)_(filepath)`. -/
def optStr : Option String → String
  | some v => v
  | none => "undefined"

/-- Lookup in the usage-regex cache object. -/
def lookupCache (c : List (String × List String)) (k : String) : Option (List String) :=
  (c.find? (fun e => e.1 = k)).map (fun e => e.2)

/-- Model of `Global.getUsageMatchRegex`. When the explicit usage-regex
override is configured, the result is the normalized override plus the
append-list, memoized under the single key `"custom"`; otherwise the
enabled frameworks' fragments (modelled by `fwRegex`, since the fragment
providers are per-framework functions) plus the append-list, memoized
under the `languageId`/`filepath` key. Returns the regex list and the
updated cache. -/
def Global.getUsageMatchRegex (cfg : Config)
    (normalize : List String → List String)
    (fwRegex : Option String → Option String → List String)
    (cache : List (String × List String))
    (languageId filepath : Option String) : List String × List (String × List String) :=
  match cfg.regexUsageMatch with
  | some ov =>
    match lookupCache cache "custom" with
    | some v => (v, cache)
    | none =>
      (normalize (ov ++ cfg.regexUsageMatchAppend),
       cache ++ [("custom", normalize (ov ++ cfg.regexUsageMatchAppend))])
  | none =>
    match lookupCache cache (optStr languageId ++ "_" ++ optStr filepath) with
    | some v => (v, cache)
    | none =>
      (normalize (fwRegex languageId filepath ++ cfg.regexUsageMatchAppend),
       cache ++ [(optStr languageId ++ "_" ++ optStr filepath,
         normalize (fwRegex languageId filepath ++ cfg.regexUsageMatchAppend))])

/-- A fixture configuration with the usage-regex override set. -/
def regexCfg : Config :=
  { sampleCfg with regexUsageMatch := some ["R"], regexUsageMatchAppend := ["A"] }

theorem pathStr_append (a b : List String) :
    pathStr (a ++ b) = pathStr a ++ pathStr b := by
  induction a with
  | nil => simp [pathStr]
  | cons c cs ih => simp [pathStr, ih, String.append_assoc]

theorem strStartsWith_append (a b : List String) :
    strStartsWith (pathStr a) (pathStr (a ++ b)) = true := by
  rw [pathStr_append, strStartsWith, List.isPrefixOf_iff_prefix]
  exact (String.data_append _ _) ▸ List.prefix_append _ _

theorem commonPrefixLen_append (l r : List String) :
    commonPrefixLen l (l ++ r) = l.length := by
  induction l with
  | nil => cases r <;> simp [commonPrefixLen]
  | cons c cs ih => simp [commonPrefixLen, ih]

theorem relativeComps_append (root rel : List String) :
    relativeComps root (root ++ rel) = rel := by
  simp [relativeComps, commonPrefixLen_append, List.drop_left]

theorem joinNorm_good (base : List String) (comps : List String)
    (h : ∀ c ∈ comps, goodComp c) :
    joinNorm base comps = base ++ comps := by
  induction comps generalizing base with
  | nil => simp [joinNorm]
  | cons c cs ih =>
    have hc : goodComp c := h c (List.mem_cons_self _ _)
    obtain ⟨h1, h2, h3⟩ := hc
    have : joinNorm base (c :: cs) = joinNorm (base ++ [c]) cs := by
      simp [joinNorm, h1, h2, h3, List.foldl_cons]
    rw [this, ih (base ++ [c]) (fun x hx => h x (List.mem_cons_of_mem _ hx))]
    simp

theorem nearestFolders_eq (root rel : List String)
    (hne : rel ≠ []) (h : ∀ c ∈ rel, goodComp c) :
    nearestFolders root (root ++ rel) =
      ((List.range rel.length).reverse.map (fun k => root ++ rel.take (k + 1)))
        ++ [root] := by
  unfold nearestFolders
  rw [relativeComps_append]
  simp only [hne, if_neg, List.append_cancel_right_eq]
  apply List.map_congr_left
  intro k _
  exact joinNorm_good root (rel.take (k + 1))
    (fun c hc => h c (List.mem_of_mem_take hc))

/-- C2: for every workspace root and every active-file directory under it
(given by its relative component list `rel`, with ordinary components),
the nearest-activation resolver inspects exactly the ancestor folders of
the active-file directory in closest-first order ending with the workspace
root, and returns the activated framework list and folder of the first
folder in that order whose resolved dependency set activates at least one
framework (`List.find?` stops at the first hit), and the empty context when
none does. -/
theorem findNearest_visits_ancestors_closest_first
    (deps : List String → List String)
    (fwOf : List String → List String → List Framework)
    (root rel : List String) (hne : rel ≠ []) (h : ∀ c ∈ rel, goodComp c) :
    findNearestEnabledFrameworks deps fwOf root (root ++ rel) =
      match (((List.range rel.length).reverse.map (fun k => root ++ rel.take (k + 1)))
          ++ [root]).find? (fun folder => !(fwOf (deps folder) folder).isEmpty) with
      | some folder => (fwOf (deps folder) folder, some folder)
      | none => ([], none) := by
  unfold findNearestEnabledFrameworks
  rw [strStartsWith_append, if_pos rfl, nearestFolders_eq root rel hne h]

/-- Witness for C2: the inner-folder scenario. Root `/r` has packages
(`deps ["r"] = ["x"]`), only `/r/app` declares the activating dependency;
from active dir `/r/app/src` the resolver selects `/r/app`, not `/r`. -/
theorem findNearest_visits_ancestors_closest_first_witness :
    ((["app", "src"] : List String) ≠ [] ∧ ∀ c ∈ (["app", "src"] : List String), goodComp c) ∧
    findNearestEnabledFrameworks
      (fun folder => if folder = ["r", "app"] then ["vue-i18n"] else ["x"])
      (fun pkgs _ => if "vue-i18n" ∈ pkgs then [⟨"vue", ["js"], []⟩] else [])
      ["r"] (["r"] ++ ["app", "src"]) =
      ([⟨"vue", ["js"], []⟩], some ["r", "app"]) :=
  ⟨⟨by decide, by decide⟩, by
    rw [findNearest_visits_ancestors_closest_first
      (fun folder => if folder = ["r", "app"] then ["vue-i18n"] else ["x"])
      (fun pkgs _ => if "vue-i18n" ∈ pkgs then [⟨"vue", ["js"], []⟩] else [])
      ["r"] ["app", "src"] (by decide) (by decide)]
    decide⟩

/-- C5 counterexample: `root = /a/b`, `current = /a/bc` — the active-file
directory is neither the root nor a descendant of it, yet because the
code's scope test is a string `startsWith`, the resolver does scan
(walking `..` segments) and here returns a non-empty context. -/
theorem findNearest_outside_root_counterexample :
    (¬ (["a", "b"] : List String) <+: ["a", "bc"]) ∧ (["a", "b"] : List String) ≠ ["a", "bc"] ∧
    findNearestEnabledFrameworks
      (fun folder => if folder = ["a", "bc"] then ["dep"] else [])
      (fun pkgs _ => if "dep" ∈ pkgs then [⟨"m", [], []⟩] else [])
      ["a", "b"] ["a", "bc"] =
      ([⟨"m", [], []⟩], some ["a", "bc"]) := by
  refine ⟨by decide, by decide, ?_⟩
  decide

/-- C5 (amended): when the string form of the active-file directory does
not start with the string form of the workspace root, the resolver
returns the empty context immediately (no frameworks, no activation
folder) — the scope test is a string-prefix test, not a true
ancestor-descendant test. -/
theorem findNearest_not_strPreceded_empty
    (deps : List String → List String)
    (fwOf : List String → List String → List Framework)
    (root current : List String)
    (h : strStartsWith (pathStr root) (pathStr current) = false) :
    findNearestEnabledFrameworks deps fwOf root current = ([], none) := by
  unfold findNearestEnabledFrameworks
  rw [h]
  simp

/-- Witness for the amended C5: `/b` does not start with `/a`, so the
resolver returns the empty context. -/
theorem findNearest_not_strPreceded_empty_witness :
    strStartsWith (pathStr ["a"]) (pathStr ["b"]) = false ∧
    findNearestEnabledFrameworks (fun _ => ["dep"])
      (fun _ folder => [⟨"m", [], []⟩, ⟨folder.headD "", [], []⟩]) ["a"] ["b"] = ([], none) :=
  ⟨by decide, findNearest_not_strPreceded_empty _ _ _ _ (by decide)⟩

theorem mem_addPath (s : List (List String)) (q p : List String) :
    p ∈ addPath s q ↔ p ∈ s ∨ p = q := by
  unfold addPath
  split
  · constructor
    · exact fun h => Or.inl h
    · rintro (h | rfl) <;> assumption
  · simp

theorem FSList.lookup_mem_names : ∀ {l : FSList} {m : String} {s : FSTree},
    l.lookup m = some s → m ∈ l.names
  | .nil, m, s, h => by simp [FSList.lookup] at h
  | .cons n t r, m, s, h => by
    unfold FSList.lookup at h
    by_cases hn : n = m
    · rw [show FSList.names (.cons n t r) = n :: r.names from rfl, hn]
      exact List.mem_cons_self _ _
    · rw [if_neg hn] at h
      rw [show FSList.names (.cons n t r) = n :: r.names from rfl]
      exact List.mem_cons_of_mem _ (FSList.lookup_mem_names h)

theorem FSList.lookup_eq_none_of_not_mem {l : FSList} {m : String}
    (h : m ∉ l.names) : l.lookup m = none := by
  cases hl : l.lookup m with
  | none => rfl
  | some s => exact absurd (FSList.lookup_mem_names hl) h

mutual
theorem mem_traverseDirectory (filename : String) (ign : List String)
    (t : FSTree) (cur : List String) (acc : List (List String)) (p : List String)
    (hwf : t.wf = true) :
    p ∈ traverseDirectory filename ign t cur acc ↔
      p ∈ acc ∨ ∃ rel t', descend t rel = some t' ∧ (∀ c ∈ rel, c ∉ ign) ∧
        filename ∈ t'.files ∧ p = cur ++ rel ++ [filename] := by
  match t with
  | .mk files subdirs =>
    have hnd : subdirs.names.Nodup := by
      unfold FSTree.wf at hwf
      exact of_decide_eq_true (Bool.and_elim_left hwf)
    have hwl : subdirs.wfAll = true := by
      unfold FSTree.wf at hwf
      exact Bool.and_elim_right hwf
    rw [show traverseDirectory filename ign (.mk files subdirs) cur acc =
          traverseList filename ign subdirs cur
            (if filename ∈ files then addPath acc (cur ++ [filename]) else acc)
        from rfl]
    rw [mem_traverseList filename ign subdirs cur _ p hnd hwl]
    constructor
    · rintro (hin | ⟨n, sub, cs, t', hlk, hnig, hcs, hdes, hfile, hp⟩)
      · by_cases hf : filename ∈ files
        · rw [if_pos hf, mem_addPath] at hin
          rcases hin with hin | rfl
          · exact Or.inl hin
          · exact Or.inr ⟨[], .mk files subdirs, rfl, by simp, hf, by simp⟩
        · rw [if_neg hf] at hin
          exact Or.inl hin
      · refine Or.inr ⟨n :: cs, t', ?_, ?_, hfile, ?_⟩
        · show (match (FSTree.mk files subdirs).subdirs.lookup n with
            | none => none
            | some t'' => descend t'' cs) = some t'
          rw [show (FSTree.mk files subdirs).subdirs = subdirs from rfl, hlk]
          exact hdes
        · intro c hc
          rcases List.mem_cons.mp hc with rfl | hc
          · exact hnig
          · exact hcs c hc
        · exact hp
    · rintro (hin | ⟨rel, t', hdes, hrel, hfile, hp⟩)
      · refine Or.inl ?_
        split
        · rw [mem_addPath]; exact Or.inl hin
        · exact hin
      · match rel, hdes with
        | [], hdes =>
          have ht' : t' = .mk files subdirs := by
            simpa [descend] using hdes.symm
          refine Or.inl ?_
          have hf : filename ∈ files := by rw [ht'] at hfile; exact hfile
          rw [if_pos hf, mem_addPath]
          exact Or.inr (by simpa using hp)
        | c :: cs, hdes =>
          unfold descend at hdes
          rw [show (FSTree.mk files subdirs).subdirs = subdirs from rfl] at hdes
          cases hlk : subdirs.lookup c with
          | none => rw [hlk] at hdes; simp at hdes
          | some sub =>
            rw [hlk] at hdes
            refine Or.inr ⟨c, sub, cs, t', hlk,
              hrel c (List.mem_cons_self _ _), fun x hx => hrel x (List.mem_cons_of_mem _ hx),
              hdes, hfile, hp⟩

theorem mem_traverseList (filename : String) (ign : List String)
    (l : FSList) (cur : List String) (acc : List (List String)) (p : List String)
    (hnd : l.names.Nodup) (hwf : l.wfAll = true) :
    p ∈ traverseList filename ign l cur acc ↔
      p ∈ acc ∨ ∃ n sub cs t', l.lookup n = some sub ∧ n ∉ ign ∧
        (∀ c ∈ cs, c ∉ ign) ∧ descend sub cs = some t' ∧
        filename ∈ t'.files ∧ p = cur ++ (n :: cs) ++ [filename] := by
  match l with
  | .nil =>
    rw [show traverseList filename ign .nil cur acc = acc from rfl]
    simp [FSList.lookup]
  | .cons n sub rest =>
    have hnr : n ∉ rest.names := by
      rw [show FSList.names (.cons n sub rest) = n :: rest.names from rfl] at hnd
      exact (List.nodup_cons.mp hnd).1
    have hndr : rest.names.Nodup := by
      rw [show FSList.names (.cons n sub rest) = n :: rest.names from rfl] at hnd
      exact (List.nodup_cons.mp hnd).2
    have hws : sub.wf = true := by
      unfold FSList.wfAll at hwf
      exact Bool.and_elim_left hwf
    have hwr : rest.wfAll = true := by
      unfold FSList.wfAll at hwf
      exact Bool.and_elim_right hwf
    rw [show traverseList filename ign (.cons n sub rest) cur acc =
          traverseList filename ign rest cur
            (if n ∈ ign then acc else traverseDirectory filename ign sub (cur ++ [n]) acc)
        from rfl]
    rw [mem_traverseList filename ign rest cur _ p hndr hwr]
    have hacc1 : p ∈ (if n ∈ ign then acc
        else traverseDirectory filename ign sub (cur ++ [n]) acc) ↔
        p ∈ acc ∨ (n ∉ ign ∧ ∃ rel t', descend sub rel = some t' ∧
          (∀ c ∈ rel, c ∉ ign) ∧ filename ∈ t'.files ∧
          p = (cur ++ [n]) ++ rel ++ [filename]) := by
      split
      · rename_i hig
        simp only [hig, not_true_eq_false, false_and, or_false]
      · rename_i hig
        rw [mem_traverseDirectory filename ign sub (cur ++ [n]) acc p hws]
        constructor
        · rintro (h | h)
          · exact Or.inl h
          · exact Or.inr ⟨hig, h⟩
        · rintro (h | ⟨_, h⟩)
          · exact Or.inl h
          · exact Or.inr h
    rw [hacc1]
    constructor
    · rintro ((hin | ⟨hig, rel, t', hdes, hrel, hfile, hp⟩) |
        ⟨m, s, cs, t', hlk, hmig, hcs, hdes, hfile, hp⟩)
      · exact Or.inl hin
      · refine Or.inr ⟨n, sub, rel, t', ?_, hig, hrel, hdes, hfile, by rw [hp]; simp⟩
        show (if n = n then some sub else rest.lookup n) = some sub
        simp
      · have hmn : n ≠ m := by
          intro h
          exact hnr (h ▸ FSList.lookup_mem_names hlk)
        refine Or.inr ⟨m, s, cs, t', ?_, hmig, hcs, hdes, hfile, hp⟩
        show (if n = m then some sub else rest.lookup m) = some s
        rw [if_neg hmn]
        exact hlk
    · rintro (hin | ⟨m, s, cs, t', hlk, hmig, hcs, hdes, hfile, hp⟩)
      · exact Or.inl (Or.inl hin)
      · rw [show FSList.lookup (.cons n sub rest) m =
            (if n = m then some sub else rest.lookup m) from rfl] at hlk
        by_cases hmn : n = m
        · rw [if_pos hmn] at hlk
          injection hlk with hlk
          subst hmn
          refine Or.inl (Or.inr ⟨hmig, cs, t', hlk ▸ hdes, hcs, hfile, by rw [hp]; simp⟩)
        · rw [if_neg hmn] at hlk
          exact Or.inr ⟨m, s, cs, t', hlk, hmig, hcs, hdes, hfile, hp⟩
end

theorem nodup_addPath (s : List (List String)) (q : List String)
    (h : s.Nodup) : (addPath s q).Nodup := by
  unfold addPath
  split
  · exact h
  · rename_i hq
    rw [List.nodup_append]
    refine ⟨h, List.nodup_singleton _, ?_⟩
    intro a ha hb
    rw [List.mem_singleton] at hb
    subst hb
    exact hq ha

mutual
theorem nodup_traverseDirectory (filename : String) (ign : List String) :
    ∀ (t : FSTree) (cur : List String) (acc : List (List String)),
      acc.Nodup → (traverseDirectory filename ign t cur acc).Nodup
  | .mk files subdirs, cur, acc, h => by
    rw [show traverseDirectory filename ign (.mk files subdirs) cur acc =
          traverseList filename ign subdirs cur
            (if filename ∈ files then addPath acc (cur ++ [filename]) else acc)
        from rfl]
    refine nodup_traverseList filename ign subdirs cur _ ?_
    split
    · exact nodup_addPath _ _ h
    · exact h

theorem nodup_traverseList (filename : String) (ign : List String) :
    ∀ (l : FSList) (cur : List String) (acc : List (List String)),
      acc.Nodup → (traverseList filename ign l cur acc).Nodup
  | .nil, cur, acc, h => h
  | .cons n sub rest, cur, acc, h => by
    rw [show traverseList filename ign (.cons n sub rest) cur acc =
          traverseList filename ign rest cur
            (if n ∈ ign then acc else traverseDirectory filename ign sub (cur ++ [n]) acc)
        from rfl]
    refine nodup_traverseList filename ign rest cur _ ?_
    split
    · exact h
    · exact nodup_traverseDirectory filename ign sub (cur ++ [n]) acc h
end

/-- Membership in the scanned manifest set: exactly the manifests of the
root and of every descendant directory reachable without passing through
an ignored directory name. -/
theorem mem_scanPaths (filename : String) (ign : List String)
    (t : FSTree) (root : List String) (p : List String) (hwf : t.wf = true) :
    p ∈ scanPaths filename ign t root ↔
      ∃ rel t', descend t rel = some t' ∧ (∀ c ∈ rel, c ∉ ign) ∧
        filename ∈ t'.files ∧ p = root ++ rel ++ [filename] := by
  unfold scanPaths
  rw [mem_traverseDirectory filename ign t root _ p hwf]
  constructor
  · rintro (hin | h)
    · split at hin
      · rename_i hf
        rw [mem_addPath] at hin
        rcases hin with hin | rfl
        · simp at hin
        · exact ⟨[], t, by cases t; rfl, by simp, hf, by simp⟩
      · simp at hin
    · exact h
  · exact Or.inr

theorem nodup_scanPaths (filename : String) (ign : List String)
    (t : FSTree) (root : List String) : (scanPaths filename ign t root).Nodup := by
  unfold scanPaths
  refine nodup_traverseDirectory filename ign t root _ ?_
  split
  · exact nodup_addPath _ _ List.nodup_nil
  · exact List.nodup_nil

/-- C3 counterexample: the claim includes `root/filename` in the result
set unconditionally, but the scan only records it when it exists. Tree:
root has no manifest, subdirectory `d` has one. The scan returns only
`d/m`; the claimed set also contains `root/m`. -/
theorem scanPaths_root_unconditional_counterexample :
    scanPaths "m" [] (.mk [] (.cons "d" (.mk ["m"] .nil) .nil)) [] = [["d", "m"]] ∧
    ([] : List String) ++ ["m"] ∉ scanPaths "m" [] (.mk [] (.cons "d" (.mk ["m"] .nil) .nil)) [] :=
  ⟨by decide, by decide⟩

/-- C3 (amended): for every well-formed directory tree, manifest filename
and ignore list, the scan returns exactly the set
`{root/filename : root/filename exists} ∪ {d/filename : d is a descendant
directory not under an ignored subtree and d/filename exists}` — a
subdirectory whose name is ignored is not entered, so its whole subtree
is excluded — and the returned list has no duplicate paths. -/
theorem scanPaths_exact_set (filename : String) (ign : List String)
    (t : FSTree) (root : List String) (hwf : t.wf = true) :
    (∀ p, p ∈ scanPaths filename ign t root ↔
      ∃ rel t', descend t rel = some t' ∧ (∀ c ∈ rel, c ∉ ign) ∧
        filename ∈ t'.files ∧ p = root ++ rel ++ [filename]) ∧
    (scanPaths filename ign t root).Nodup :=
  ⟨fun p => mem_scanPaths filename ign t root p hwf,
   nodup_scanPaths filename ign t root⟩

/-- Witness for the amended C3, on the two-level tree
`root ↦ {m, sub/ ↦ {m}, ignored node_modules/ ↦ {m}}`: the scan finds
exactly the root manifest and `sub/m`, skipping `node_modules`. -/
theorem scanPaths_exact_set_witness :
    (FSTree.mk ["m"] (.cons "sub" (.mk ["m"] .nil)
        (.cons "node_modules" (.mk ["m"] .nil) .nil))).wf = true ∧
    ((["r", "sub", "m"] : List String) ∈ scanPaths "m" ["node_modules"]
        (.mk ["m"] (.cons "sub" (.mk ["m"] .nil)
          (.cons "node_modules" (.mk ["m"] .nil) .nil))) ["r"] ↔
      ∃ rel t', descend (.mk ["m"] (.cons "sub" (.mk ["m"] .nil)
          (.cons "node_modules" (.mk ["m"] .nil) .nil))) rel = some t' ∧
        (∀ c ∈ rel, c ∉ (["node_modules"] : List String)) ∧
        "m" ∈ t'.files ∧ ["r", "sub", "m"] = ["r"] ++ rel ++ ["m"]) :=
  ⟨by decide,
   (scanPaths_exact_set "m" ["node_modules"]
      (.mk ["m"] (.cons "sub" (.mk ["m"] .nil)
        (.cons "node_modules" (.mk ["m"] .nil) .nil))) ["r"] (by decide)).1
     ["r", "sub", "m"]⟩

theorem parseAll_eq_none_of_mem (parserRaw : String → Option (List String))
    (contents : List String → String) (paths : List (List String))
    (p : List String) (hp : p ∈ paths) (hfail : parserRaw (contents p) = none) :
    parseAll parserRaw contents paths = none := by
  induction paths with
  | nil => simp at hp
  | cons q qs ih =>
    rcases List.mem_cons.mp hp with rfl | hp
    · unfold parseAll
      rw [hfail]
    · unfold parseAll
      cases parserRaw (contents q) with
      | none => rfl
      | some d => rw [ih hp]

/-- C4: if parsing the raw content of any discovered manifest under a
root fails, `load` aborts extraction for the whole root: it returns the
`NotFound` outcome (`undefined`, here `none`) together with the log
signal, dependency names parsed from the other manifests are discarded,
and — the model being a total function — no exception reaches the
caller. -/
theorem load_aborts_on_parse_failure (parserRaw : String → Option (List String))
    (contents : List String → String) (filename : String) (ign : List String)
    (t : FSTree) (root : List String) (p : List String)
    (hp : p ∈ scanPaths filename ign t root)
    (hfail : parserRaw (contents p) = none) :
    load parserRaw contents filename ign t root = (none, [.found, .parseError]) := by
  unfold load
  have hne : (scanPaths filename ign t root).isEmpty = false := by
    cases h : scanPaths filename ign t root with
    | nil => rw [h] at hp; simp at hp
    | cons a as => rfl
  simp only [hne, Bool.false_eq_true, if_false,
    parseAll_eq_none_of_mem parserRaw contents _ p hp hfail]

/-- Witness for C4: a root whose own manifest parses but whose
subdirectory manifest is malformed; `load` returns `none` with the
`found`/`parseError` log signals, discarding the root's parsed names. -/
theorem load_aborts_on_parse_failure_witness :
    (["d", "m"] : List String) ∈
      scanPaths "m" [] (.mk ["m"] (.cons "d" (.mk ["m"] .nil) .nil)) [] ∧
    load (fun raw => if raw = "bad" then none else some ["dep"])
      (fun p => if p = ["d", "m"] then "bad" else "ok") "m" []
      (.mk ["m"] (.cons "d" (.mk ["m"] .nil) .nil)) [] =
      (none, [.found, .parseError]) :=
  ⟨by decide,
   load_aborts_on_parse_failure
     (fun raw => if raw = "bad" then none else some ["dep"])
     (fun p => if p = ["d", "m"] then "bad" else "ok") "m" []
     (.mk ["m"] (.cons "d" (.mk ["m"] .nil) .nil)) [] ["d", "m"]
     (by decide) (by decide)⟩

namespace Global

theorem setEnabled_fst (v : Bool) (s : GlobalState) :
    (setEnabled v s).1 = { s with enabled := v } := by
  unfold setEnabled
  split
  · rfl
  · rename_i h
    have hv : s.enabled = v := not_ne_iff.mp h
    cases s
    simp only at hv
    rw [hv]

theorem setEnabled_snd (v : Bool) (s : GlobalState) :
    (setEnabled v s).2 = if s.enabled ≠ v then [.enabledChanged v] else [] := by
  unfold setEnabled
  split
  · rfl
  · rfl

theorem initLoader_enabled (r : Bool) (s : GlobalState) :
    (initLoader r s).enabled = s.enabled := by
  unfold initLoader
  split
  · rfl
  · split
    · rfl
    · rfl

theorem initLoader_disposed (r : Bool) (s : GlobalState) :
    (initLoader r s).disposed = s.disposed := by
  unfold initLoader
  split
  · rfl
  · split
    · rfl
    · rfl

theorem initLoader_enabledFrameworks (r : Bool) (s : GlobalState) :
    (initLoader r s).enabledFrameworks = s.enabledFrameworks := by
  unfold initLoader
  split
  · rfl
  · split
    · rfl
    · rfl

theorem initLoader_nearest (r : Bool) (s : GlobalState) :
    (initLoader r s).nearestEnabledFrameworkPath = s.nearestEnabledFrameworkPath := by
  unfold initLoader
  split
  · rfl
  · split
    · rfl
    · rfl

theorem initLoader_root (r : Bool) (s : GlobalState) :
    (initLoader r s).currentWorkspaceRootPath = s.currentWorkspaceRootPath := by
  unfold initLoader
  split
  · rfl
  · split
    · rfl
    · rfl

theorem initLoader_active (r : Bool) (s : GlobalState) :
    (initLoader r s).currentActiveFilePath = s.currentActiveFilePath := by
  unfold initLoader
  split
  · rfl
  · split
    · rfl
    · rfl

theorem initLoader_cache (r : Bool) (s : GlobalState) :
    (initLoader r s).cacheUsageMatchRegex = s.cacheUsageMatchRegex := by
  unfold initLoader
  split
  · rfl
  · split
    · rfl
    · rfl

theorem unloadAll_enabled (s : GlobalState) : (unloadAll s).enabled = s.enabled := rfl

theorem unloadAll_enabledFrameworks (s : GlobalState) :
    (unloadAll s).enabledFrameworks = s.enabledFrameworks := rfl

theorem unloadAll_nearest (s : GlobalState) :
    (unloadAll s).nearestEnabledFrameworkPath = s.nearestEnabledFrameworkPath := rfl

theorem unloadAll_root (s : GlobalState) :
    (unloadAll s).currentWorkspaceRootPath = s.currentWorkspaceRootPath := rfl

theorem unloadAll_active (s : GlobalState) :
    (unloadAll s).currentActiveFilePath = s.currentActiveFilePath := rfl

theorem unloadAll_cache (s : GlobalState) :
    (unloadAll s).cacheUsageMatchRegex = s.cacheUsageMatchRegex := rfl

theorem unloadAll_loaders (s : GlobalState) : (unloadAll s).loaders = [] := rfl

theorem unloadAll_disposed (s : GlobalState) :
    (unloadAll s).disposed = s.disposed ++ s.loaders.map (fun e => e.2) := rfl

theorem recompute_fst (cfg : Config) (env : Env) (r : Bool) (t : GlobalState) :
    (recompute cfg env r t).1 =
      if (!cfg.disabled &&
            (!(computeFrameworks cfg env t).1.isEmpty &&
             !(enabledParsers cfg env (computeFrameworks cfg env t).1).isEmpty) &&
            (localesPaths cfg (computeFrameworks cfg env t).1).isSome)
      then initLoader r
        { t with
          enabledFrameworks := (computeFrameworks cfg env t).1,
          nearestEnabledFrameworkPath := (computeFrameworks cfg env t).2,
          enabled := !cfg.disabled &&
            (!(computeFrameworks cfg env t).1.isEmpty &&
             !(enabledParsers cfg env (computeFrameworks cfg env t).1).isEmpty) &&
            (localesPaths cfg (computeFrameworks cfg env t).1).isSome }
      else unloadAll
        { t with
          enabledFrameworks := (computeFrameworks cfg env t).1,
          nearestEnabledFrameworkPath := (computeFrameworks cfg env t).2,
          enabled := !cfg.disabled &&
            (!(computeFrameworks cfg env t).1.isEmpty &&
             !(enabledParsers cfg env (computeFrameworks cfg env t).1).isEmpty) &&
            (localesPaths cfg (computeFrameworks cfg env t).1).isSome } := by
  simp only [recompute, setEnabled_fst]

theorem recompute_snd (cfg : Config) (env : Env) (r : Bool) (t : GlobalState) :
    (recompute cfg env r t).2 =
      (if t.enabled ≠ (!cfg.disabled &&
            (!(computeFrameworks cfg env t).1.isEmpty &&
             !(enabledParsers cfg env (computeFrameworks cfg env t).1).isEmpty) &&
            (localesPaths cfg (computeFrameworks cfg env t).1).isSome)
       then [Notif.enabledChanged (!cfg.disabled &&
            (!(computeFrameworks cfg env t).1.isEmpty &&
             !(enabledParsers cfg env (computeFrameworks cfg env t).1).isEmpty) &&
            (localesPaths cfg (computeFrameworks cfg env t).1).isSome)]
       else []) ++ [Notif.loaderChanged] := by
  simp only [recompute, setEnabled_snd]

theorem recompute_enabled (cfg : Config) (env : Env) (r : Bool) (t : GlobalState) :
    ((recompute cfg env r t).1).enabled =
      (!cfg.disabled &&
        (!(computeFrameworks cfg env t).1.isEmpty &&
         !(enabledParsers cfg env (computeFrameworks cfg env t).1).isEmpty) &&
        (localesPaths cfg (computeFrameworks cfg env t).1).isSome) := by
  rw [recompute_fst]
  split
  · rw [initLoader_enabled]
  · rw [unloadAll_enabled]

theorem recompute_enabledFrameworks (cfg : Config) (env : Env) (r : Bool) (t : GlobalState) :
    ((recompute cfg env r t).1).enabledFrameworks = (computeFrameworks cfg env t).1 := by
  rw [recompute_fst]
  split
  · rw [initLoader_enabledFrameworks]
  · rw [unloadAll_enabledFrameworks]

theorem recompute_nearest (cfg : Config) (env : Env) (r : Bool) (t : GlobalState) :
    ((recompute cfg env r t).1).nearestEnabledFrameworkPath = (computeFrameworks cfg env t).2 := by
  rw [recompute_fst]
  split
  · rw [initLoader_nearest]
  · rw [unloadAll_nearest]

theorem recompute_root (cfg : Config) (env : Env) (r : Bool) (t : GlobalState) :
    ((recompute cfg env r t).1).currentWorkspaceRootPath = t.currentWorkspaceRootPath := by
  rw [recompute_fst]
  split
  · rw [initLoader_root]
  · rw [unloadAll_root]

theorem recompute_active (cfg : Config) (env : Env) (r : Bool) (t : GlobalState) :
    ((recompute cfg env r t).1).currentActiveFilePath = t.currentActiveFilePath := by
  rw [recompute_fst]
  split
  · rw [initLoader_active]
  · rw [unloadAll_active]

theorem recompute_cache (cfg : Config) (env : Env) (r : Bool) (t : GlobalState) :
    ((recompute cfg env r t).1).cacheUsageMatchRegex = t.cacheUsageMatchRegex := by
  rw [recompute_fst]
  split
  · rw [initLoader_cache]
  · rw [unloadAll_cache]

theorem computeFrameworks_stable (cfg : Config) (env : Env) (t₁ t₂ : GlobalState)
    (hroot : t₂.currentWorkspaceRootPath = t₁.currentWorkspaceRootPath)
    (hact : t₂.currentActiveFilePath = t₁.currentActiveFilePath)
    (hnp : t₂.nearestEnabledFrameworkPath = (computeFrameworks cfg env t₁).2) :
    computeFrameworks cfg env t₂ = computeFrameworks cfg env t₁ := by
  unfold computeFrameworks at hnp ⊢
  cases h : cfg.enabledFrameworks with
  | none =>
    rw [hroot, hact]
  | some ids =>
    rw [h] at hnp
    rw [hroot, hnp]

theorem lookupLoader_setLoader (l : List (List String × Nat)) (r : List String) (v : Nat) :
    lookupLoader (setLoader l r v) r = some v := by
  induction l with
  | nil =>
    simp [setLoader, lookupLoader, List.find?]
  | cons e es ih =>
    by_cases he : e.1 = r
    · unfold setLoader
      rw [List.find?_cons_of_pos _ (by simp [he])]
      simp only [Option.isSome_some, if_true]
      unfold lookupLoader
      rw [List.map_cons, List.find?_cons_of_pos _ (by simp [he])]
      simp [he]
    · unfold setLoader at ih ⊢
      rw [List.find?_cons_of_neg _ (by simp [he])]
      cases hfind : (es.find? fun x => decide (x.1 = r)).isSome with
      | true =>
        rw [if_pos rfl]
        rw [hfind] at ih
        rw [if_pos rfl] at ih
        unfold lookupLoader at ih ⊢
        rw [List.map_cons, if_neg he, List.find?_cons_of_neg _ (by simp [he])]
        exact ih
      | false =>
        rw [if_neg (by simp)]
        rw [hfind] at ih
        rw [if_neg (by simp)] at ih
        unfold lookupLoader at ih ⊢
        rw [List.cons_append, List.find?_cons_of_neg _ (by simp [he])]
        exact ih

theorem initLoader_reuse (s : GlobalState)
    (h : s.currentWorkspaceRootPath = [] ∨
      (lookupLoader s.loaders s.currentWorkspaceRootPath).isSome = true) :
    initLoader false s = s := by
  unfold initLoader
  rcases h with h | h
  · rw [if_pos h]
  · split
    · rfl
    · rw [if_pos ⟨h, by simp⟩]

theorem initLoader_establishes (r : Bool) (s : GlobalState)
    (h : s.currentWorkspaceRootPath ≠ []) :
    (lookupLoader (initLoader r s).loaders (initLoader r s).currentWorkspaceRootPath).isSome
      = true := by
  rw [initLoader_root]
  unfold initLoader
  split
  · exact absurd (by assumption) h
  · split
    · rename_i hl
      rw [hl.1]
    · simp only
      rw [lookupLoader_setLoader]
      rfl

theorem unloadAll_idem (s : GlobalState) (h : s.loaders = []) : unloadAll s = s := by
  unfold unloadAll
  cases s
  simp only at h
  subst h
  simp

end Global

/-- C1 counterexample: a call to `update` with a configuration event
affecting none of the allow-lists returns early, so the enabled state is
left at `true` even though `localesPaths` is `undefined` while the
active framework set and the enabled parser set are both non-empty —
contradicting "for every state in which localesPaths is undefined, the
state after update is disabled". -/
theorem update_enabled_counterexample :
    Global.localesPaths sampleCfg sampleState.enabledFrameworks = none ∧
    sampleState.enabledFrameworks ≠ [] ∧
    Global.enabledParsers sampleCfg sampleEnv sampleState.enabledFrameworks ≠ [] ∧
    ((Global.update sampleCfg sampleEnv (some fun _ => false) sampleState).1).enabled = true :=
  ⟨by decide, by decide, by decide, by decide⟩

/-- C1 (amended): after every call to `update` that reaches the
recomputation phase (no configuration event, or an event affecting a
reload- or refresh-triggering key), the enabled state equals the
conjunction: not explicitly disabled, at least one active framework, at
least one enabled parser, and locale paths defined. A call returning
early on an unrelated-only event leaves the previous enabled state in
place. -/
theorem update_enabled_eq_conjunction (cfg : Config) (env : Env)
    (ev : Option (String → Bool)) (s : GlobalState)
    (hev : Global.eventReaches cfg ev) :
    ((Global.update cfg env ev s).1).enabled =
      (!cfg.disabled &&
        (!(Global.computeFrameworks cfg env s).1.isEmpty &&
         !(Global.enabledParsers cfg env (Global.computeFrameworks cfg env s).1).isEmpty) &&
        (Global.localesPaths cfg (Global.computeFrameworks cfg env s).1).isSome) := by
  cases ev with
  | none =>
    show ((Global.recompute cfg env false (Global.resetCache s)).1).enabled = _
    rw [Global.recompute_enabled]
    rfl
  | some a =>
    have haff : (matchedAny a cfg.reloadConfigs || matchedAny a cfg.refreshConfigs) = true := by
      rcases hev with h | h
      · rw [h]; rfl
      · rw [h, Bool.or_true]
    show (if (matchedAny a cfg.reloadConfigs || matchedAny a cfg.refreshConfigs) = true
        then Global.recompute cfg env (matchedAny a cfg.reloadConfigs) (Global.resetCache s)
        else (Global.resetCache s, [])).1.enabled = _
    rw [if_pos haff, Global.recompute_enabled]
    rfl

/-- Witness for the amended C1: a no-event `update` from the sample
state; `localesPaths` is `undefined` so the computed enabled state is
`false`. -/
theorem update_enabled_eq_conjunction_witness :
    Global.eventReaches sampleCfg none ∧
    ((Global.update sampleCfg sampleEnv none sampleState).1).enabled =
      (!sampleCfg.disabled &&
        (!(Global.computeFrameworks sampleCfg sampleEnv sampleState).1.isEmpty &&
         !(Global.enabledParsers sampleCfg sampleEnv
             (Global.computeFrameworks sampleCfg sampleEnv sampleState).1).isEmpty) &&
        (Global.localesPaths sampleCfg
           (Global.computeFrameworks sampleCfg sampleEnv sampleState).1).isSome) :=
  ⟨trivial, update_enabled_eq_conjunction sampleCfg sampleEnv none sampleState trivial⟩

/-- C6 counterexample: an event affecting none of the three allow-lists
does not leave every derived-settings cache entry unchanged — `update`
clears the usage-regex cache first thing, before the allow-list check. -/
theorem update_unrelated_counterexample :
    matchedAny (fun _ => false) sampleCfg.reloadConfigs = false ∧
    matchedAny (fun _ => false) sampleCfg.refreshConfigs = false ∧
    matchedAny (fun _ => false) sampleCfg.usageRefreshConfigs = false ∧
    sampleState.cacheUsageMatchRegex ≠ [] ∧
    ((Global.update sampleCfg sampleEnv (some fun _ => false) sampleState).1).cacheUsageMatchRegex
      = [] :=
  ⟨by decide, by decide, by decide, by decide, by decide⟩

/-- C6 (amended): for a configuration-change event affecting none of the
three allow-lists, `update` performs no recomputation and fires no
notification; the enabled state, framework set and loader registry are
unchanged — but the usage-regex cache is cleared (by the unconditional
`resetCache()` at the top of `update`), so the post-state is exactly the
pre-state with an emptied cache. -/
theorem update_unrelated_event_clears_cache_only (cfg : Config) (env : Env)
    (a : String → Bool) (s : GlobalState)
    (h1 : matchedAny a cfg.reloadConfigs = false)
    (h2 : matchedAny a cfg.refreshConfigs = false)
    (_h3 : matchedAny a cfg.usageRefreshConfigs = false) :
    Global.update cfg env (some a) s = ({ s with cacheUsageMatchRegex := [] }, []) := by
  show (if (matchedAny a cfg.reloadConfigs || matchedAny a cfg.refreshConfigs) = true
      then Global.recompute cfg env (matchedAny a cfg.reloadConfigs) (Global.resetCache s)
      else (Global.resetCache s, [])) = _
  rw [h1, h2]
  rfl

/-- Witness for the amended C6: the unrelated event on the sample state
leaves everything but the cache unchanged and fires nothing. -/
theorem update_unrelated_event_clears_cache_only_witness :
    (matchedAny (fun _ => false) sampleCfg.reloadConfigs = false ∧
     matchedAny (fun _ => false) sampleCfg.refreshConfigs = false ∧
     matchedAny (fun _ => false) sampleCfg.usageRefreshConfigs = false) ∧
    Global.update sampleCfg sampleEnv (some fun _ => false) sampleState =
      ({ sampleState with cacheUsageMatchRegex := [] }, []) :=
  ⟨⟨by decide, by decide, by decide⟩,
   update_unrelated_event_clears_cache_only sampleCfg sampleEnv (fun _ => false) sampleState
     (by decide) (by decide) (by decide)⟩

theorem Global.recompute_disabled_fields (cfg : Config) (env : Env) (r : Bool) (t : GlobalState)
    (hdis : (!cfg.disabled &&
        (!(Global.computeFrameworks cfg env t).1.isEmpty &&
         !(Global.enabledParsers cfg env (Global.computeFrameworks cfg env t).1).isEmpty) &&
        (Global.localesPaths cfg (Global.computeFrameworks cfg env t).1).isSome) = false) :
    ((Global.recompute cfg env r t).1).loaders = [] ∧
    ((Global.recompute cfg env r t).1).disposed = t.disposed ++ t.loaders.map (fun e => e.2) := by
  rw [Global.recompute_fst, hdis]
  rw [if_neg (by simp)]
  exact ⟨rfl, rfl⟩

/-- C8: whenever `update` reaches recomputation and computes a disabled
result, every loader resource in the registry — for all roots, not just
the current one — is disposed (its id appended to the disposed log, in
registry order) and the registry is cleared to empty. -/
theorem update_disabled_disposes_all (cfg : Config) (env : Env)
    (ev : Option (String → Bool)) (s : GlobalState)
    (hev : Global.eventReaches cfg ev)
    (hdis : (!cfg.disabled &&
        (!(Global.computeFrameworks cfg env s).1.isEmpty &&
         !(Global.enabledParsers cfg env (Global.computeFrameworks cfg env s).1).isEmpty) &&
        (Global.localesPaths cfg (Global.computeFrameworks cfg env s).1).isSome) = false) :
    ((Global.update cfg env ev s).1).loaders = [] ∧
    ((Global.update cfg env ev s).1).disposed = s.disposed ++ s.loaders.map (fun e => e.2) := by
  cases ev with
  | none =>
    show ((Global.recompute cfg env false (Global.resetCache s)).1).loaders = [] ∧
      ((Global.recompute cfg env false (Global.resetCache s)).1).disposed = _
    exact Global.recompute_disabled_fields cfg env false (Global.resetCache s) hdis
  | some a =>
    have haff : (matchedAny a cfg.reloadConfigs || matchedAny a cfg.refreshConfigs) = true := by
      rcases hev with h | h
      · rw [h]; rfl
      · rw [h, Bool.or_true]
    have key := Global.recompute_disabled_fields cfg env (matchedAny a cfg.reloadConfigs)
      (Global.resetCache s) hdis
    show ((if (matchedAny a cfg.reloadConfigs || matchedAny a cfg.refreshConfigs) = true
        then Global.recompute cfg env (matchedAny a cfg.reloadConfigs) (Global.resetCache s)
        else (Global.resetCache s, [])).1).loaders = [] ∧
      ((if (matchedAny a cfg.reloadConfigs || matchedAny a cfg.refreshConfigs) = true
        then Global.recompute cfg env (matchedAny a cfg.reloadConfigs) (Global.resetCache s)
        else (Global.resetCache s, [])).1).disposed = _
    rw [if_pos haff]
    exact key

/-- Witness for C8: from a state holding loaders for two roots, a
no-event `update` computing a disabled result (undefined locale paths)
disposes both loaders and clears the registry. -/
theorem update_disabled_disposes_all_witness :
    Global.eventReaches sampleCfg none ∧
    (!sampleCfg.disabled &&
        (!(Global.computeFrameworks sampleCfg sampleEnv loadedState).1.isEmpty &&
         !(Global.enabledParsers sampleCfg sampleEnv
             (Global.computeFrameworks sampleCfg sampleEnv loadedState).1).isEmpty) &&
        (Global.localesPaths sampleCfg
           (Global.computeFrameworks sampleCfg sampleEnv loadedState).1).isSome) = false ∧
    ((Global.update sampleCfg sampleEnv none loadedState).1).loaders = [] ∧
    ((Global.update sampleCfg sampleEnv none loadedState).1).disposed =
      loadedState.disposed ++ loadedState.loaders.map (fun e => e.2) :=
  ⟨trivial, by decide,
   update_disabled_disposes_all sampleCfg sampleEnv none loadedState trivial (by decide)⟩

/-- C7 counterexample: the second of two back-to-back `update` calls
with no intervening change does emit a notification — `update` fires the
loader-changed event unconditionally at its end — refuting "the second
update call emits no notification at all". -/
theorem update_second_call_notifies_counterexample :
    (Global.update sampleCfg sampleEnv none
        ((Global.update sampleCfg sampleEnv none sampleState).1)).2 = [.loaderChanged] ∧
    ([Notif.loaderChanged] : List Notif) ≠ [] :=
  ⟨by decide, by decide⟩

/-- C7 (amended): calling `update` twice in succession with no
intervening environment or configuration change leaves the state —
derived-settings cache, enabled state, framework set, loader registry —
unchanged after the second call, and the second call fires no
enabled-changed notification (a transition to the same value is a
no-op); it does, however, emit the unconditional loader-changed
notification, so it is not notification-free. -/
theorem update_idempotent (cfg : Config) (env : Env) (s : GlobalState) :
    (Global.update cfg env none ((Global.update cfg env none s).1)).1
      = (Global.update cfg env none s).1 ∧
    (Global.update cfg env none ((Global.update cfg env none s).1)).2
      = [Notif.loaderChanged] := by
  have hupd : ∀ t : GlobalState, Global.update cfg env none t
      = Global.recompute cfg env false (Global.resetCache t) := fun _ => rfl
  simp only [hupd]
  set T := Global.resetCache s with hT
  set A := (Global.recompute cfg env false T).1 with hA
  have hroot : A.currentWorkspaceRootPath = T.currentWorkspaceRootPath :=
    Global.recompute_root cfg env false T
  have hact : A.currentActiveFilePath = T.currentActiveFilePath :=
    Global.recompute_active cfg env false T
  have hnp : A.nearestEnabledFrameworkPath = (Global.computeFrameworks cfg env T).2 :=
    Global.recompute_nearest cfg env false T
  have hfw : A.enabledFrameworks = (Global.computeFrameworks cfg env T).1 :=
    Global.recompute_enabledFrameworks cfg env false T
  have hen : A.enabled = (!cfg.disabled &&
      (!(Global.computeFrameworks cfg env T).1.isEmpty &&
       !(Global.enabledParsers cfg env (Global.computeFrameworks cfg env T).1).isEmpty) &&
      (Global.localesPaths cfg (Global.computeFrameworks cfg env T).1).isSome) :=
    Global.recompute_enabled cfg env false T
  have hcache : A.cacheUsageMatchRegex = [] := by
    rw [Global.recompute_cache cfg env false T, hT]
    rfl
  have hstable : Global.computeFrameworks cfg env (Global.resetCache A)
      = Global.computeFrameworks cfg env T :=
    Global.computeFrameworks_stable cfg env T (Global.resetCache A) hroot hact hnp
  constructor
  · rw [Global.recompute_fst cfg env false (Global.resetCache A)]
    rw [hstable]
    have hM : ({ Global.resetCache A with
        enabledFrameworks := (Global.computeFrameworks cfg env T).1,
        nearestEnabledFrameworkPath := (Global.computeFrameworks cfg env T).2,
        enabled := !cfg.disabled &&
          (!(Global.computeFrameworks cfg env T).1.isEmpty &&
           !(Global.enabledParsers cfg env (Global.computeFrameworks cfg env T).1).isEmpty) &&
          (Global.localesPaths cfg (Global.computeFrameworks cfg env T).1).isSome } : GlobalState)
        = A := by
      apply GlobalState.ext
      · rfl
      · rfl
      · rfl
      · exact hen.symm
      · exact hfw.symm
      · exact hnp.symm
      · rfl
      · rfl
      · exact hcache.symm
    rw [hM]
    cases hc : (!cfg.disabled &&
        (!(Global.computeFrameworks cfg env T).1.isEmpty &&
         !(Global.enabledParsers cfg env (Global.computeFrameworks cfg env T).1).isEmpty) &&
        (Global.localesPaths cfg (Global.computeFrameworks cfg env T).1).isSome) with
    | true =>
      rw [if_pos rfl]
      apply Global.initLoader_reuse
      by_cases hr : A.currentWorkspaceRootPath = []
      · exact Or.inl hr
      · right
        rw [Global.recompute_fst, hc, if_pos rfl] at hA
        rw [hA]
        refine Global.initLoader_establishes false _ ?_
        show T.currentWorkspaceRootPath ≠ []
        intro h
        exact hr (hroot.trans h)
    | false =>
      rw [if_neg (by simp)]
      apply Global.unloadAll_idem
      rw [Global.recompute_fst, hc, if_neg (by simp)] at hA
      rw [hA]
      exact Global.unloadAll_loaders _
  · rw [Global.recompute_snd cfg env false (Global.resetCache A)]
    rw [hstable]
    rw [if_neg (by intro h; exact h hen)]
    rfl

/-- Witness for the amended C7: two back-to-back no-event `update` calls
on the sample state; the second leaves the state fixed and fires only
the loader-changed notification. -/
theorem update_idempotent_witness :
    (Global.update sampleCfg sampleEnv none
        ((Global.update sampleCfg sampleEnv none sampleState).1)).1
      = (Global.update sampleCfg sampleEnv none sampleState).1 ∧
    (Global.update sampleCfg sampleEnv none
        ((Global.update sampleCfg sampleEnv none sampleState).1)).2
      = [Notif.loaderChanged] :=
  update_idempotent sampleCfg sampleEnv sampleState

/-- C9: when the explicit parser-id override supplies no ids
(`undefined` or an empty list) and the enabled frameworks supply none
either, `enabledParsers` falls back to the default-enabled ids and
returns the available parsers with those ids; consequently the parser
set is empty only when no available parser carries a default-enabled
id. -/
theorem enabledParsers_default (cfg : Config) (env : Env) (fw : List Framework)
    (hcfg : cfg.enabledParsers = none ∨ cfg.enabledParsers = some [])
    (hfw : fw.flatMap (fun f => f.enabledParsers) = []) :
    Global.enabledParsers cfg env fw =
      env.availableParsers.filter (fun p => env.defaultEnabledParsers.contains p.id) ∧
    (Global.enabledParsers cfg env fw ≠ [] ↔
      env.availableParsers.filter (fun p => env.defaultEnabledParsers.contains p.id) ≠ []) := by
  have h : Global.enabledParsers cfg env fw =
      env.availableParsers.filter (fun p => env.defaultEnabledParsers.contains p.id) := by
    unfold Global.enabledParsers
    rcases hcfg with h | h
    · rw [h, hfw]
      rfl
    · rw [h, hfw]
      rfl
  exact ⟨h, by rw [h]⟩

/-- Witness for C9: no override, a framework supplying no parser ids;
the default-enabled `js` parser is returned, and the parser conjunct of
the enabled state is therefore non-empty. -/
theorem enabledParsers_default_witness :
    (sampleCfg.enabledParsers = none ∨ sampleCfg.enabledParsers = some []) ∧
    ([⟨"noParserFw", [], []⟩] : List Framework).flatMap (fun f => f.enabledParsers) = [] ∧
    Global.enabledParsers sampleCfg sampleEnv [⟨"noParserFw", [], []⟩] =
      sampleEnv.availableParsers.filter
        (fun p => sampleEnv.defaultEnabledParsers.contains p.id) :=
  ⟨Or.inl rfl, rfl,
   (enabledParsers_default sampleCfg sampleEnv [⟨"noParserFw", [], []⟩] (Or.inl rfl) rfl).1⟩

/-- C10: with the explicit usage-match override configured, the result
of `getUsageMatchRegex` is independent of its `languageId`/`filepath`
arguments and of the frameworks' regex fragments (two calls with
arbitrary different arguments and fragment providers return equal
lists), and on a cache without a `"custom"` entry it is exactly the
normalized override plus the append-list, cached under that single
key. -/
theorem getUsageMatchRegex_override_ignores_args (cfg : Config) (ov : List String)
    (hov : cfg.regexUsageMatch = some ov)
    (normalize : List String → List String)
    (fwRegex fwRegex' : Option String → Option String → List String)
    (cache : List (String × List String))
    (l1 f1 l2 f2 : Option String) :
    (Global.getUsageMatchRegex cfg normalize fwRegex cache l1 f1).1
      = (Global.getUsageMatchRegex cfg normalize fwRegex' cache l2 f2).1 ∧
    (lookupCache cache "custom" = none →
      Global.getUsageMatchRegex cfg normalize fwRegex cache l1 f1
        = (normalize (ov ++ cfg.regexUsageMatchAppend),
           cache ++ [("custom", normalize (ov ++ cfg.regexUsageMatchAppend))])) := by
  unfold Global.getUsageMatchRegex
  rw [hov]
  constructor
  · cases lookupCache cache "custom" with
    | none => rfl
    | some v => rfl
  · intro h
    rw [h]

/-- Witness for C10: with override `["R"]` and append `["A"]`, two calls
with different language ids, filepaths and framework fragments agree. -/
theorem getUsageMatchRegex_override_ignores_args_witness :
    regexCfg.regexUsageMatch = some ["R"] ∧
    (Global.getUsageMatchRegex regexCfg
        (fun l => l) (fun _ _ => ["FW"]) [] (some "ts") (some "/a")).1
      = (Global.getUsageMatchRegex regexCfg
          (fun l => l) (fun _ _ => ["GW"]) [] (some "js") (some "/b")).1 :=
  ⟨rfl,
   (getUsageMatchRegex_override_ignores_args regexCfg
      ["R"] rfl (fun l => l) (fun _ _ => ["FW"]) (fun _ _ => ["GW"]) []
      (some "ts") (some "/a") (some "js") (some "/b")).1⟩

end I18n
